import Mathlib

/-!
Shallow embedding of the world-state engine of `src/libethereum/State.cpp`
(cpp-ethereum): the account cache over a Merkle-Patricia trie, the commit
protocol, and the transaction-execution wrapper.

Modelling conventions:
* `u256` values are `Nat` with arithmetic taken `% 2^256` where the C++
  type wraps; the sentinel `Invalid256` is `2^256 - 1`.
* A Merkle root is a deterministic injective function of the trie's
  content, so the model identifies a root with the content it authenticates:
  the root of an account's storage trie is the key/value association list
  itself, and `rootHash` of the whole state is the account trie's content.
  Equality of contents coincides with equality of roots.
* Code hashes are likewise identified with the code bytes they digest
  (an injective idealisation of SHA3); `EmptySHA3` is the hash of `[]`.
* `std::unordered_map` becomes an association list with
  insert-replaces-previous-binding semantics; iteration order differences
  are irrelevant to the properties proved here.
* C++ exceptions become an `Option Err` component in each operation's
  result; mutations performed before a throw persist in the returned state,
  exactly as the C++ state object is left when an exception unwinds.
* The RNG driving cache eviction (`dev::s_fixedHashEngine`) becomes an
  oracle `Nat → Nat`; draw `k` is reduced modulo the current list length,
  so quantifying over all oracles covers every sequence of uniform draws.
-/

namespace EthState

/-- 20-byte account identifier, abstracted to `Nat`. -/
abbrev Address := Nat

/-- Modulus of the `u256` type. -/
def U256size : Nat := 2 ^ 256

/-- The sentinel `Invalid256` (all-ones `u256`) marking an unset
`m_accountStartNonce`. -/
def Invalid256 : Nat := U256size - 1

/-- Content of one account's storage trie; the Merkle root is identified
with this content (see the header comment). -/
abbrev Storage := List (Nat × Nat)

/-- A code hash, identified with the code bytes it digests. -/
abbrev CodeHash := List Nat

/-- `EmptySHA3`: hash of the empty byte string. -/
def EmptySHA3 : CodeHash := []

/-- `EmptyTrie`: root (= content) of the empty storage trie. -/
def EmptyTrie : Storage := []

/-- Association-list lookup, first binding wins (as in a map). -/
def alookup {β : Type} : List (Nat × β) → Nat → Option β
  | [], _ => none
  | (b, v) :: t, a => if b = a then some v else alookup t a

/-- Remove every binding of key `a`. -/
def aerase {β : Type} (m : List (Nat × β)) (a : Nat) : List (Nat × β) :=
  m.filter (fun p => p.1 ≠ a)

/-- Map insert: replaces any previous binding of `k` (the semantics of
`m[k] = v` on `std::unordered_map` / `std::map`). -/
def ainsert {β : Type} (m : List (Nat × β)) (k : Nat) (v : β) : List (Nat × β) :=
  (k, v) :: aerase m k

/-- Serialized per-address trie entry: the RLP list
`[nonce, balance, storage_root, code_hash]` of §6, with the root and hash
identified with the data they authenticate. -/
structure AccountRLP where
  nonce : Nat
  balance : Nat
  storageRoot : Storage
  codeHash : CodeHash
deriving Repr, DecidableEq

/-- The main account trie: address to serialized account. -/
abbrev Trie := List (Nat × AccountRLP)

/-- Modelled from the spec: the in-memory `Account` object (class `Account`
of libethereum, not under `src/`): nonce, balance, persisted storage root
(`baseRoot`), code hash, pending storage overlay, fresh-code buffer,
lazily loaded code bytes with its validity flag, and the combined
status ∈ {Unchanged, Dirty-Alive, Dirty-Killed} encoded as the two flags
`unchangedFlag` and `alive`. -/
structure Account where
  nonce : Nat
  balance : Nat
  baseRoot : Storage
  codeHash : CodeHash
  storageOverlay : Storage
  freshCode : Option (List Nat)
  codeBytes : List Nat
  codeCacheValid : Bool
  alive : Bool
  unchangedFlag : Bool
deriving Repr, DecidableEq

namespace Account

/-- Modelled from the spec: `new_dormant(nonce, balance, storage_root,
code_hash)` — an account decoded from the on-disk trie; `status = Unchanged`. -/
def newDormant (n b : Nat) (sr : Storage) (ch : CodeHash) : Account :=
  ⟨n, b, sr, ch, [], none, [], false, true, true⟩

/-- Modelled from the spec: `new_normal(nonce, balance)` — a plain account
created in the cache; `status = Dirty-Alive`, no code, empty storage. -/
def newNormal (n b : Nat) : Account :=
  ⟨n, b, EmptyTrie, EmptySHA3, [], none, [], true, true, false⟩

/-- Modelled from the spec: `new_contract(nonce, balance)` — a contract
about to receive code; `status = Dirty-Alive`, empty fresh code. -/
def newContract (n b : Nat) : Account :=
  ⟨n, b, EmptyTrie, EmptySHA3, [], none, [], true, true, false⟩

/-- `is_dirty`: the account's status is not `Unchanged`. -/
def isDirty (a : Account) : Bool := !a.unchangedFlag

/-- `is_alive`. -/
def isAlive (a : Account) : Bool := a.alive

/-- `is_fresh_code`. -/
def isFreshCode (a : Account) : Bool := a.freshCode.isSome

/-- Modelled from the spec: an account is empty iff nonce = 0, balance = 0,
`code_hash = EmptyCodeHash`, storage overlay empty and fresh code empty. -/
def isEmpty (a : Account) : Bool :=
  a.nonce = 0 && a.balance = 0 && a.codeHash = EmptySHA3 &&
    a.storageOverlay.isEmpty && !a.isFreshCode

/-- Modelled from the spec: `inc_nonce()` — bump the `u256` nonce and mark
the account dirty. -/
def incNonce (a : Account) : Account :=
  { a with nonce := (a.nonce + 1) % U256size, unchangedFlag := false }

/-- Modelled from the spec: `add_balance(BigInt)` — permits negative deltas
(underflow is prevented by the caller); the `u256` balance wraps modulo
`2^256`. Marks the account dirty. -/
def addBalance (a : Account) (d : Int) : Account :=
  { a with balance := (((a.balance : Int) + d) % (U256size : Int)).toNat,
           unchangedFlag := false }

/-- Modelled from the spec: `set_storage(key, value)` — write to the
overlay (`value = 0` marks deletion) and mark the account dirty. -/
def setStorage (a : Account) (k v : Nat) : Account :=
  { a with storageOverlay := ainsert a.storageOverlay k v, unchangedFlag := false }

/-- Modelled from the spec: `set_storage_cache(key, value)` — memoize a
persisted-trie read in the overlay; read-only, does **not** mark dirty. -/
def setStorageCache (a : Account) (k v : Nat) : Account :=
  { a with storageOverlay := ainsert a.storageOverlay k v }

/-- Modelled from the spec: `note_code(bytes)` — install code fetched from
the overlay DB; marks the code cache valid, does not mark dirty. -/
def noteCode (a : Account) (bs : List Nat) : Account :=
  { a with codeBytes := bs, codeCacheValid := true }

/-- Modelled from the spec: `kill()` — mark the account `Dirty-Killed`. -/
def kill (a : Account) : Account :=
  { a with alive := false, unchangedFlag := false }

end Account

/-- Error kinds surfaced by the state layer (§7). -/
inductive Err
  | NotEnoughCash
  | InvalidAccountStartNonceInState
  | IncorrectAccountStartNonceInState
deriving Repr, DecidableEq

/-- The overlay object store, reduced to the part the modelled operations
read: the code bytes stored at a code hash (`m_db.lookup(codeHash)`). -/
structure DB where
  codeAt : CodeHash → List Nat

/-- The top-level engine state (`class State`): overlay DB, account trie
(content = root), account cache, the eviction list of clean entries, the
set of touched addresses, and the configured account start nonce. -/
structure State where
  db : DB
  state : Trie
  cache : List (Address × Account)
  unchangedCacheEntries : List Address
  touched : List Address
  accountStartNonce : Nat

/-- A freshly opened state over a given backing trie: empty cache, empty
eviction list, empty touched set. -/
def initState (db : DB) (trie : Trie) (asn : Nat) : State :=
  ⟨db, trie, [], [], [], asn⟩

/-- `rootHash()`: the root of the account trie, identified with the trie's
content (a Merkle root is a deterministic injective function of content). -/
def rootHash (s : State) : Trie := s.state

/-- Swap the element at index `i` with the last element, then pop the back
(`swap(v[i], v.back()); v.pop_back()`). -/
def swapPop (l : List Address) (i : Nat) : List Address :=
  (l.set i (l.getLastD 0)).dropLast

/-- One conditional cache removal of `State::clearCacheIfTooLarge`: erase
the entry at `addr` only if it is present and not dirty. -/
def evictIfClean (c : List (Address × Account)) (addr : Address) :
    List (Address × Account) :=
  match alookup c addr with
  | some acc => if acc.isDirty then c else aerase c addr
  | none => c

/-- The loop body of `State::clearCacheIfTooLarge`, with explicit fuel
(the C++ `while` terminates because each iteration pops one element; fuel
equal to the list length therefore suffices).  `r` is the RNG oracle and
`k` the index of the next draw; the drawn value is reduced modulo the
current length, matching `uniform_int_distribution(0, size-1)`. -/
def evictLoop (r : Nat → Nat) : Nat → Nat → List Address →
    List (Address × Account) → List Address × List (Address × Account)
  | 0, _, uce, c => (uce, c)
  | fuel + 1, k, uce, c =>
    if uce.length > 1000 then
      let idx := r k % uce.length
      let addr := uce.getD idx 0
      evictLoop r fuel (k + 1) (swapPop uce idx) (evictIfClean c addr)
    else (uce, c)

/-- `State::clearCacheIfTooLarge()`: while more than 1000 clean entries are
listed, remove a random one from the list and, if still unchanged, from the
cache. -/
def clearCacheIfTooLarge (r : Nat → Nat) (k : Nat) (uce : List Address)
    (c : List (Address × Account)) : List Address × List (Address × Account) :=
  evictLoop r uce.length k uce c

/-- `State::account(_a, _requireCode)`: return the cached entry if present;
otherwise read the serialized account from the trie — absent means
`nullptr` — then run eviction, install the decoded account as `Unchanged`
and append the address to `unchangedCacheEntries`.  If `_requireCode` and
the code is not yet materialized, fetch it from the overlay DB by hash and
`noteCode` it.  Returns the account visible to the caller and the mutated
state (the C++ method mutates the cache through `const_cast` even on const
paths). -/
def accountLoad (s : State) (a : Address) (r : Nat → Nat) :
    Option Account × State :=
  match alookup s.cache a with
  | some acc => (some acc, s)
  | none =>
    match alookup s.state a with
    | none => (none, s)
    | some rlp =>
      let ev := clearCacheIfTooLarge r 0 s.unchangedCacheEntries s.cache
      let acc := Account.newDormant rlp.nonce rlp.balance rlp.storageRoot rlp.codeHash
      (some acc,
        { s with cache := ainsert ev.2 a acc,
                 unchangedCacheEntries := ev.1 ++ [a] })

/-- The `_requireCode` tail of `State::account`: materialize the code from
the overlay DB when asked and not yet cached; `noteCode` mutates the cached
entry in place without dirtying it. -/
def accountFn (s : State) (a : Address) (requireCode : Bool) (r : Nat → Nat) :
    Option Account × State :=
  match accountLoad s a r with
  | (none, s₁) => (none, s₁)
  | (some acc, s₁) =>
    if requireCode && !acc.isFreshCode && !acc.codeCacheValid then
      let bs := if acc.codeHash = EmptySHA3 then [] else s₁.db.codeAt acc.codeHash
      let acc' := acc.noteCode bs
      (some acc', { s₁ with cache := ainsert s₁.cache a acc' })
    else (some acc, s₁)

/-- `State::requireAccountStartNonce()`: error when the start nonce is the
`Invalid256` sentinel, else hand it back. -/
def requireAccountStartNonce (s : State) : Except Err Nat :=
  if s.accountStartNonce = Invalid256 then
    Except.error Err.InvalidAccountStartNonceInState
  else Except.ok s.accountStartNonce

/-- `State::noteAccountStartNonce(_actual)`: set when unset; otherwise fail
with `IncorrectAccountStartNonceInState` exactly when the proposed value
differs from the stored one. -/
def noteAccountStartNonce (s : State) (actual : Nat) : State × Option Err :=
  if s.accountStartNonce = Invalid256 then
    ({ s with accountStartNonce := actual }, none)
  else if s.accountStartNonce ≠ actual then
    (s, some Err.IncorrectAccountStartNonceInState)
  else (s, none)

/-- `State::getNonce(_addr)`: the account's nonce when one exists (cache or
trie), else the raw `m_accountStartNonce` field — no start-nonce check, so
this never raises. -/
def getNonce (s : State) (a : Address) (r : Nat → Nat) : Nat × State :=
  match accountFn s a false r with
  | (some acc, s₁) => (acc.nonce, s₁)
  | (none, s₁) => (s₁.accountStartNonce, s₁)

/-- `State::balance(_id)`: the account's balance, or 0 when absent. -/
def balanceOf (s : State) (a : Address) (r : Nat → Nat) : Nat × State :=
  match accountFn s a false r with
  | (some acc, s₁) => (acc.balance, s₁)
  | (none, s₁) => (0, s₁)

/-- `State::incNonce(_addr)`: bump the nonce in place, or create the
account at `start_nonce + 1` (requiring the start nonce to be set). -/
def incNonce (s : State) (a : Address) (r : Nat → Nat) : State × Option Err :=
  match accountFn s a false r with
  | (some acc, s₁) =>
    ({ s₁ with cache := ainsert s₁.cache a acc.incNonce }, none)
  | (none, s₁) =>
    match requireAccountStartNonce s₁ with
    | Except.error e => (s₁, some e)
    | Except.ok asn =>
      ({ s₁ with cache := ainsert s₁.cache a (Account.newNormal ((asn + 1) % U256size) 0) }, none)

/-- `State::addBalance(_id, _amount)`: add in place, or create the account
with `(start_nonce, amount)` (requiring the start nonce to be set). -/
def addBalance (s : State) (a : Address) (amt : Nat) (r : Nat → Nat) :
    State × Option Err :=
  match accountFn s a false r with
  | (some acc, s₁) =>
    ({ s₁ with cache := ainsert s₁.cache a (acc.addBalance (amt : Int)) }, none)
  | (none, s₁) =>
    match requireAccountStartNonce s₁ with
    | Except.error e => (s₁, some e)
    | Except.ok asn =>
      ({ s₁ with cache := ainsert s₁.cache a (Account.newNormal asn amt) }, none)

/-- `State::subBalance(_id, _amount)`: amount 0 is an immediate no-op;
otherwise load the account — if absent or its balance is below the
(signed, arbitrary-precision) amount, fail with `NotEnoughCash`, keeping
whatever cache population the lookup performed; else `addBalance(-amount)`. -/
def subBalance (s : State) (a : Address) (amt : Int) (r : Nat → Nat) :
    State × Option Err :=
  if amt = 0 then (s, none)
  else
    match accountFn s a false r with
    | (none, s₁) => (s₁, some Err.NotEnoughCash)
    | (some acc, s₁) =>
      if (acc.balance : Int) < amt then (s₁, some Err.NotEnoughCash)
      else ({ s₁ with cache := ainsert s₁.cache a (acc.addBalance (-amt)) }, none)

/-- `State::createContract(_address, _incrementNonce)`: overwrite the cache
entry with a fresh contract account carrying the current balance. -/
def createContract (s : State) (a : Address) (incrementNonce : Bool)
    (r : Nat → Nat) : State × Option Err :=
  match requireAccountStartNonce s with
  | Except.error e => (s, some e)
  | Except.ok asn =>
    let (bal, s₁) := balanceOf s a r
    let acc := Account.newContract ((asn + (if incrementNonce then 1 else 0)) % U256size) bal
    ({ s₁ with cache := ainsert s₁.cache a acc }, none)

/-- `State::ensureAccountExists(_address)`: no-op when in use, else create
a normal empty dirty account. -/
def ensureAccountExists (s : State) (a : Address) (r : Nat → Nat) :
    State × Option Err :=
  match accountFn s a false r with
  | (some _, s₁) => (s₁, none)
  | (none, s₁) =>
    match requireAccountStartNonce s₁ with
    | Except.error e => (s₁, some e)
    | Except.ok asn =>
      ({ s₁ with cache := ainsert s₁.cache a (Account.newNormal asn 0) }, none)

/-- `State::kill(_addr)`: mark an existing account killed; silently no-op
when absent from both cache and trie. -/
def killAddr (s : State) (a : Address) (r : Nat → Nat) : State :=
  match accountFn s a false r with
  | (some acc, s₁) => { s₁ with cache := ainsert s₁.cache a acc.kill }
  | (none, s₁) => s₁

/-- `State::storage(_id, _key)`: overlay value if present; else decode the
persisted storage trie at the account's `baseRoot` (0 when absent) and
memoize it with `setStorageCache` — a read, not a dirtying write. -/
def storageGet (s : State) (a : Address) (k : Nat) (r : Nat → Nat) :
    Nat × State :=
  match accountFn s a false r with
  | (none, s₁) => (0, s₁)
  | (some acc, s₁) =>
    match alookup acc.storageOverlay k with
    | some v => (v, s₁)
    | none =>
      let ret := (alookup acc.baseRoot k).getD 0
      (ret, { s₁ with cache := ainsert s₁.cache a (acc.setStorageCache k ret) })

/-- Modelled from the spec: the state-level `set_storage(a, key, value)`
(inline in State.h, not under `src/`): write through to the cached
account's overlay, marking it dirty; the reference writes through
`m_cache[_contract]`, which touches only the cache.  An absent cache entry
is default-constructed empty before the write. -/
def setStorageOp (s : State) (a : Address) (k v : Nat) : State :=
  let acc := (alookup s.cache a).getD (Account.newNormal 0 0)
  { s with cache := ainsert s.cache a (acc.setStorage k v) }

/-- `CommitBehaviour` of `State::commit`. -/
inductive CommitBehaviour
  | KeepEmptyAccounts
  | RemoveEmptyAccounts
deriving Repr, DecidableEq

/-- One entry of `State::removeEmptyAccounts()`: kill a cached entry that
is dirty and empty, leave every other entry alone. -/
def killIfDirtyEmpty (p : Address × Account) : Address × Account :=
  if p.2.isDirty && p.2.isEmpty then (p.1, p.2.kill) else p

/-- `State::removeEmptyAccounts()`: kill every cached entry that is dirty
and empty. -/
def removeEmptyAccountsFn (s : State) : State :=
  { s with cache := s.cache.map killIfDirtyEmpty }

/-- Modelled from the spec: the account-fold at commit — fresh code is
hashed into `code_hash`, the storage overlay is folded into the persisted
storage trie (insert on nonzero, remove on zero), and the account is
re-encoded as `[nonce, balance, storage_root, code_hash]`. -/
def commitAccount (acc : Account) : AccountRLP :=
  { nonce := acc.nonce
    balance := acc.balance
    storageRoot := acc.storageOverlay.foldl
      (fun st kv => if kv.2 = 0 then aerase st kv.1 else ainsert st kv.1 kv.2)
      acc.baseRoot
    codeHash :=
      match acc.freshCode with
      | some fc => fc
      | none => acc.codeHash }

/-- Modelled from the spec: `dev::eth::commit(cache, trie)` (a template
defined outside `src/`): fold each **dirty** cache entry into the trie —
killed entries delete their trie row, dirty-alive entries are re-encoded
and inserted, unchanged entries are skipped — and return the set of dirty
addresses. -/
def ethCommitStep (acc : Trie × List Address) (p : Address × Account) :
    Trie × List Address :=
  if p.2.isDirty then
    (if p.2.isAlive then ainsert acc.1 p.1 (commitAccount p.2)
     else aerase acc.1 p.1,
     p.1 :: acc.2)
  else acc

/-- Modelled from the spec: the whole fold of `dev::eth::commit`. -/
def ethCommit (cache : List (Address × Account)) (trie : Trie) :
    Trie × List Address :=
  cache.foldl ethCommitStep (trie, [])

/-- `State::commit(_commitBehaviour)`: optionally kill dirty empties, fold
the cache into the trie, union the dirty addresses into `touched`, then
clear the cache and the eviction list. -/
def commit (s : State) (b : CommitBehaviour) : State :=
  let s₀ := if b = CommitBehaviour.RemoveEmptyAccounts then removeEmptyAccountsFn s else s
  let folded := ethCommit s₀.cache s₀.state
  { s₀ with state := folded.1,
            touched := folded.2 ++ s₀.touched,
            cache := [],
            unchangedCacheEntries := [] }

/-- `State::setRoot(_r)`: clear cache and eviction list, rebind the trie. -/
def setRoot (s : State) (tr : Trie) : State :=
  { s with cache := [], unchangedCacheEntries := [], state := tr }

/-- `State::populateFrom(_map)`: fold the given account map straight into
the trie, then commit keeping empty accounts. -/
def populateFrom (s : State) (m : List (Address × Account)) : State :=
  commit { s with state := (ethCommit m s.state).1 } CommitBehaviour.KeepEmptyAccounts

/-- `Permanence` of `State::execute`. -/
inductive Permanence
  | Committed
  | Uncommitted
  | Reverted
deriving Repr, DecidableEq

/-- The state mutations an `Executive` can route through §4.5 while running
one transaction: every cache-level read/write, but never `commit`,
`setRoot` or `populateFrom` (those are invoked only outside or after the
VM run).  RNG oracles are carried in the constructor. -/
inductive MutOp
  | lookup (a : Address) (requireCode : Bool) (r : Nat → Nat)
  | readNonce (a : Address) (r : Nat → Nat)
  | readBalance (a : Address) (r : Nat → Nat)
  | readStorage (a : Address) (k : Nat) (r : Nat → Nat)
  | doIncNonce (a : Address) (r : Nat → Nat)
  | doAddBalance (a : Address) (amt : Nat) (r : Nat → Nat)
  | doSubBalance (a : Address) (amt : Int) (r : Nat → Nat)
  | doCreateContract (a : Address) (incrementNonce : Bool) (r : Nat → Nat)
  | doEnsureExists (a : Address) (r : Nat → Nat)
  | doKill (a : Address) (r : Nat → Nat)
  | doSetStorage (a : Address) (k v : Nat)

/-- State effect of one `MutOp` (returned values and errors dropped; the
post-throw state is kept, as the C++ exception unwinds past it). -/
def applyMut (s : State) (m : MutOp) : State :=
  match m with
  | MutOp.lookup a rc r => (accountFn s a rc r).2
  | MutOp.readNonce a r => (getNonce s a r).2
  | MutOp.readBalance a r => (balanceOf s a r).2
  | MutOp.readStorage a k r => (storageGet s a k r).2
  | MutOp.doIncNonce a r => (incNonce s a r).1
  | MutOp.doAddBalance a amt r => (addBalance s a amt r).1
  | MutOp.doSubBalance a amt r => (subBalance s a amt r).1
  | MutOp.doCreateContract a inc r => (createContract s a inc r).1
  | MutOp.doEnsureExists a r => (ensureAccountExists s a r).1
  | MutOp.doKill a r => killAddr s a r
  | MutOp.doSetStorage a k v => setStorageOp s a k v

/-- `State::execute` after the Executive has produced its mutations: if
`Permanence::Reverted`, discard all cache changes by clearing the cache
(the trie was not yet touched) and do not advance the root; otherwise
commit, removing empty accounts iff the block is past the EIP-158 fork. -/
def execute (s : State) (p : Permanence) (pastEip158 : Bool)
    (muts : List MutOp) : State :=
  let s₁ := muts.foldl applyMut s
  if p = Permanence.Reverted then { s₁ with cache := [] }
  else
    commit s₁ (if pastEip158 then CommitBehaviour.RemoveEmptyAccounts
               else CommitBehaviour.KeepEmptyAccounts)

/-- Everything a client can do to a `State` between construction and
destruction: the per-transaction mutations plus `commit`, `setRoot`,
`populateFrom`, `noteAccountStartNonce` and whole-transaction `execute`. -/
inductive Op
  | opMut (m : MutOp)
  | doCommit (b : CommitBehaviour)
  | doSetRoot (tr : Trie)
  | doPopulateFrom (m : List (Address × Account))
  | doNoteStartNonce (v : Nat)
  | doExecute (p : Permanence) (pastEip158 : Bool) (muts : List MutOp)

/-- State effect of one `Op`. -/
def stepOp (s : State) (op : Op) : State :=
  match op with
  | Op.opMut m => applyMut s m
  | Op.doCommit b => commit s b
  | Op.doSetRoot tr => setRoot s tr
  | Op.doPopulateFrom m => populateFrom s m
  | Op.doNoteStartNonce v => (noteAccountStartNonce s v).1
  | Op.doExecute p past muts => execute s p past muts

/-- Reachable states: any freshly opened state (over an arbitrary backing
trie), closed under all operations. -/
inductive Reachable : State → Prop
  | init (db : DB) (trie : Trie) (asn : Nat) : Reachable (initState db trie asn)
  | step (s : State) (op : Op) : Reachable s → Reachable (stepOp s op)

/-! ### Association-list lemmas -/

theorem alookup_ainsert_self {β : Type} (m : List (Nat × β)) (k : Nat) (v : β) :
    alookup (ainsert m k v) k = some v := by
  simp [ainsert, alookup]

theorem alookup_aerase {β : Type} (m : List (Nat × β)) (k a : Nat) :
    alookup (aerase m k) a = if k = a then none else alookup m a := by
  induction m with
  | nil => by_cases hka : k = a <;> simp [aerase, alookup, hka]
  | cons p t ih =>
    by_cases hpk : p.1 = k
    · have hskip : aerase (p :: t) k = aerase t k := by
        simp [aerase, List.filter_cons, hpk]
      rw [hskip, ih]
      by_cases hka : k = a
      · simp [hka]
      · have hpa : ¬ p.1 = a := fun h => hka (hpk ▸ h)
        simp [alookup, hpa]
    · have hkeep : aerase (p :: t) k = p :: aerase t k := by
        simp [aerase, List.filter_cons, hpk]
      rw [hkeep]
      by_cases hpa : p.1 = a
      · have hka : ¬ k = a := fun h => hpk (hpa.trans h.symm)
        simp [alookup, hpa, hka]
      · simp [alookup, hpa, ih]

theorem alookup_ainsert_ne {β : Type} (m : List (Nat × β)) (k a : Nat) (v : β)
    (h : k ≠ a) : alookup (ainsert m k v) a = alookup m a := by
  simp [ainsert, alookup, h, alookup_aerase]

theorem alookup_mem {β : Type} (m : List (Nat × β)) (a : Nat) (v : β)
    (h : alookup m a = some v) : (a, v) ∈ m := by
  induction m with
  | nil => simp [alookup] at h
  | cons p t ih =>
    obtain ⟨p1, p2⟩ := p
    by_cases hpa : p1 = a
    · simp only [alookup] at h
      rw [if_pos hpa] at h
      cases h
      subst hpa
      exact List.mem_cons_self _ _
    · simp only [alookup] at h
      rw [if_neg hpa] at h
      exact List.mem_cons_of_mem _ (ih h)

/-! ### Eviction lemmas -/

theorem swapPop_length (l : List Address) (i : Nat) :
    (swapPop l i).length = l.length - 1 := by
  simp [swapPop]

theorem evictIfClean_dirty (c : List (Address × Account)) (addr a : Address)
    (acc : Account) (h : alookup c a = some acc) (hd : acc.isDirty = true) :
    alookup (evictIfClean c addr) a = some acc := by
  unfold evictIfClean
  cases hl : alookup c addr with
  | none => exact h
  | some acc' =>
    by_cases hdd : acc'.isDirty
    · simp [hdd, h]
    · have hne : addr ≠ a := by
        rintro rfl
        rw [h] at hl
        cases hl
        simp [hd] at hdd
      simp [hdd, alookup_aerase, hne, h]

theorem evictLoop_dirty (r : Nat → Nat) :
    ∀ (fuel k : Nat) (uce : List Address) (c : List (Address × Account))
      (a : Address) (acc : Account),
      alookup c a = some acc → acc.isDirty = true →
      alookup (evictLoop r fuel k uce c).2 a = some acc := by
  intro fuel
  induction fuel with
  | zero => intro k uce c a acc h _; exact h
  | succ n ih =>
    intro k uce c a acc h hd
    rw [evictLoop]
    by_cases hgt : uce.length > 1000
    · simp only [hgt, if_true]
      exact ih _ _ _ _ _ (evictIfClean_dirty c _ a acc h hd) hd
    · simp only [hgt, if_false]
      exact h

theorem clearCacheIfTooLarge_dirty (r : Nat → Nat) (k : Nat)
    (uce : List Address) (c : List (Address × Account)) (a : Address)
    (acc : Account) (h : alookup c a = some acc) (hd : acc.isDirty = true) :
    alookup (clearCacheIfTooLarge r k uce c).2 a = some acc :=
  evictLoop_dirty r uce.length k uce c a acc h hd

theorem evictLoop_length (r : Nat → Nat) :
    ∀ (fuel k : Nat) (uce : List Address) (c : List (Address × Account)),
      uce.length ≤ fuel →
      ((evictLoop r fuel k uce c).1).length = min uce.length 1000 := by
  intro fuel
  induction fuel with
  | zero =>
    intro k uce c h
    have h0 : uce.length = 0 := Nat.le_zero.mp h
    simp [evictLoop, h0]
  | succ n ih =>
    intro k uce c h
    rw [evictLoop]
    by_cases hgt : uce.length > 1000
    · simp only [hgt, if_true]
      have hsp : (swapPop uce (r k % uce.length)).length = uce.length - 1 :=
        swapPop_length _ _
      rw [ih _ _ _ (by omega), hsp]
      omega
    · simp only [hgt, if_false]
      omega

theorem clearCacheIfTooLarge_length (r : Nat → Nat) (k : Nat)
    (uce : List Address) (c : List (Address × Account)) :
    ((clearCacheIfTooLarge r k uce c).1).length = min uce.length 1000 :=
  evictLoop_length r uce.length k uce c (Nat.le_refl _)

/-! ### Frame lemmas for the account lookup -/

theorem accountLoad_state (s : State) (a : Address) (r : Nat → Nat) :
    (accountLoad s a r).2.state = s.state := by
  unfold accountLoad
  split
  · rfl
  · split
    · rfl
    · rfl

theorem accountLoad_asn (s : State) (a : Address) (r : Nat → Nat) :
    (accountLoad s a r).2.accountStartNonce = s.accountStartNonce := by
  unfold accountLoad
  split
  · rfl
  · split
    · rfl
    · rfl

theorem accountLoad_uce_le (s : State) (a : Address) (r : Nat → Nat)
    (h : s.unchangedCacheEntries.length ≤ 1001) :
    (accountLoad s a r).2.unchangedCacheEntries.length ≤ 1001 := by
  unfold accountLoad
  split
  · exact h
  · split
    · exact h
    · show ((clearCacheIfTooLarge r 0 s.unchangedCacheEntries s.cache).1 ++ [a]).length ≤ 1001
      rw [List.length_append, clearCacheIfTooLarge_length]
      simp only [List.length_singleton]
      omega

theorem accountFn_state (s : State) (a : Address) (rc : Bool) (r : Nat → Nat) :
    (accountFn s a rc r).2.state = s.state := by
  have h := accountLoad_state s a r
  unfold accountFn
  split
  · next s₁ heq => rw [heq] at h; exact h
  · next acc s₁ heq =>
    rw [heq] at h
    split
    · exact h
    · exact h

theorem accountFn_asn (s : State) (a : Address) (rc : Bool) (r : Nat → Nat) :
    (accountFn s a rc r).2.accountStartNonce = s.accountStartNonce := by
  have h := accountLoad_asn s a r
  unfold accountFn
  split
  · next s₁ heq => rw [heq] at h; exact h
  · next acc s₁ heq =>
    rw [heq] at h
    split
    · exact h
    · exact h

theorem accountFn_uce (s : State) (a : Address) (rc : Bool) (r : Nat → Nat) :
    (accountFn s a rc r).2.unchangedCacheEntries =
      (accountLoad s a r).2.unchangedCacheEntries := by
  unfold accountFn
  split
  · next s₁ heq => rw [heq]
  · next acc s₁ heq =>
    rw [heq]
    split
    · rfl
    · rfl

theorem accountFn_uce_le (s : State) (a : Address) (rc : Bool) (r : Nat → Nat)
    (h : s.unchangedCacheEntries.length ≤ 1001) :
    (accountFn s a rc r).2.unchangedCacheEntries.length ≤ 1001 := by
  rw [accountFn_uce]
  exact accountLoad_uce_le s a r h

theorem accountLoad_none (s : State) (a : Address) (r : Nat → Nat) (s₁ : State)
    (h : accountLoad s a r = (none, s₁)) :
    s₁ = s ∧ alookup s.cache a = none ∧ alookup s.state a = none := by
  unfold accountLoad at h
  split at h
  · cases h
  · next hcm =>
    split at h
    · next hsm =>
      cases h
      exact ⟨rfl, hcm, hsm⟩
    · cases h

theorem accountFn_none (s : State) (a : Address) (rc : Bool) (r : Nat → Nat)
    (s₁ : State) (h : accountFn s a rc r = (none, s₁)) :
    s₁ = s ∧ alookup s.cache a = none ∧ alookup s.state a = none := by
  unfold accountFn at h
  split at h
  · next s₂ heq =>
    cases h
    exact accountLoad_none s a r _ heq
  · next acc s₂ heq =>
    split at h
    · cases h
    · cases h

theorem accountFn_miss (s : State) (a : Address) (rc : Bool) (r : Nat → Nat)
    (hc : alookup s.cache a = none) (hs : alookup s.state a = none) :
    accountFn s a rc r = (none, s) := by
  unfold accountFn accountLoad
  rw [hc, hs]

theorem accountLoad_some_cache (s : State) (a : Address) (r : Nat → Nat)
    (acc : Account) (s₁ : State) (h : accountLoad s a r = (some acc, s₁)) :
    alookup s₁.cache a = some acc := by
  unfold accountLoad at h
  split at h
  · next acc' hc =>
    cases h
    exact hc
  · split at h
    · cases h
    · next rlp hsm =>
      cases h
      exact alookup_ainsert_self _ _ _

theorem accountFn_some_cache (s : State) (a : Address) (rc : Bool)
    (r : Nat → Nat) (acc : Account) (s₁ : State)
    (h : accountFn s a rc r = (some acc, s₁)) :
    alookup s₁.cache a = some acc := by
  unfold accountFn at h
  split at h
  · cases h
  · next acc' s₂ heq =>
    split at h
    · cases h
      exact alookup_ainsert_self _ _ _
    · cases h
      exact accountLoad_some_cache s a r _ _ heq

theorem accountFn_cacheHit (s : State) (a : Address) (r : Nat → Nat)
    (acc : Account) (h : alookup s.cache a = some acc) :
    accountFn s a false r = (some acc, s) := by
  unfold accountFn accountLoad
  rw [h]
  simp

/-! ### Frame lemmas: every per-transaction mutation leaves the trie (and
hence the root) untouched, and keeps the eviction list within its bound. -/

theorem getNonce_frame (s : State) (a : Address) (r : Nat → Nat) :
    (getNonce s a r).2.state = s.state ∧
    (getNonce s a r).2.unchangedCacheEntries =
      (accountFn s a false r).2.unchangedCacheEntries := by
  have h1 := accountFn_state s a false r
  unfold getNonce
  split
  · next acc s₁ heq => rw [heq] at h1 ⊢; exact ⟨h1, rfl⟩
  · next s₁ heq => rw [heq] at h1 ⊢; exact ⟨h1, rfl⟩

theorem balanceOf_frame (s : State) (a : Address) (r : Nat → Nat) :
    (balanceOf s a r).2.state = s.state ∧
    (balanceOf s a r).2.unchangedCacheEntries =
      (accountFn s a false r).2.unchangedCacheEntries := by
  have h1 := accountFn_state s a false r
  unfold balanceOf
  split
  · next acc s₁ heq => rw [heq] at h1 ⊢; exact ⟨h1, rfl⟩
  · next s₁ heq => rw [heq] at h1 ⊢; exact ⟨h1, rfl⟩

theorem storageGet_frame (s : State) (a : Address) (k : Nat) (r : Nat → Nat) :
    (storageGet s a k r).2.state = s.state ∧
    (storageGet s a k r).2.unchangedCacheEntries =
      (accountFn s a false r).2.unchangedCacheEntries := by
  have h1 := accountFn_state s a false r
  unfold storageGet
  split
  · next s₁ heq => rw [heq] at h1 ⊢; exact ⟨h1, rfl⟩
  · next acc s₁ heq =>
    rw [heq] at h1 ⊢
    split
    · exact ⟨h1, rfl⟩
    · exact ⟨h1, rfl⟩

theorem incNonce_frame (s : State) (a : Address) (r : Nat → Nat) :
    (incNonce s a r).1.state = s.state ∧
    (incNonce s a r).1.unchangedCacheEntries =
      (accountFn s a false r).2.unchangedCacheEntries := by
  have h1 := accountFn_state s a false r
  unfold incNonce
  split
  · next acc s₁ heq => rw [heq] at h1 ⊢; exact ⟨h1, rfl⟩
  · next s₁ heq =>
    rw [heq] at h1 ⊢
    split
    · exact ⟨h1, rfl⟩
    · exact ⟨h1, rfl⟩

theorem addBalance_frame (s : State) (a : Address) (amt : Nat) (r : Nat → Nat) :
    (addBalance s a amt r).1.state = s.state ∧
    (addBalance s a amt r).1.unchangedCacheEntries =
      (accountFn s a false r).2.unchangedCacheEntries := by
  have h1 := accountFn_state s a false r
  unfold addBalance
  split
  · next acc s₁ heq => rw [heq] at h1 ⊢; exact ⟨h1, rfl⟩
  · next s₁ heq =>
    rw [heq] at h1 ⊢
    split
    · exact ⟨h1, rfl⟩
    · exact ⟨h1, rfl⟩

theorem subBalance_frame (s : State) (a : Address) (amt : Int) (r : Nat → Nat) :
    (subBalance s a amt r).1.state = s.state ∧
    ((subBalance s a amt r).1.unchangedCacheEntries = s.unchangedCacheEntries ∨
     (subBalance s a amt r).1.unchangedCacheEntries =
       (accountFn s a false r).2.unchangedCacheEntries) := by
  have h1 := accountFn_state s a false r
  unfold subBalance
  split
  · exact ⟨rfl, Or.inl rfl⟩
  · split
    · next s₁ heq => rw [heq] at h1 ⊢; exact ⟨h1, Or.inr rfl⟩
    · next acc s₁ heq =>
      rw [heq] at h1 ⊢
      split
      · exact ⟨h1, Or.inr rfl⟩
      · exact ⟨h1, Or.inr rfl⟩

theorem createContract_frame (s : State) (a : Address) (inc : Bool)
    (r : Nat → Nat) :
    (createContract s a inc r).1.state = s.state ∧
    ((createContract s a inc r).1.unchangedCacheEntries = s.unchangedCacheEntries ∨
     (createContract s a inc r).1.unchangedCacheEntries =
       (accountFn s a false r).2.unchangedCacheEntries) := by
  have h1 := balanceOf_frame s a r
  unfold createContract
  split
  · exact ⟨rfl, Or.inl rfl⟩
  · exact ⟨h1.1, Or.inr h1.2⟩

theorem ensureAccountExists_frame (s : State) (a : Address) (r : Nat → Nat) :
    (ensureAccountExists s a r).1.state = s.state ∧
    (ensureAccountExists s a r).1.unchangedCacheEntries =
      (accountFn s a false r).2.unchangedCacheEntries := by
  have h1 := accountFn_state s a false r
  unfold ensureAccountExists
  split
  · next acc s₁ heq => rw [heq] at h1 ⊢; exact ⟨h1, rfl⟩
  · next s₁ heq =>
    rw [heq] at h1 ⊢
    split
    · exact ⟨h1, rfl⟩
    · exact ⟨h1, rfl⟩

theorem killAddr_frame (s : State) (a : Address) (r : Nat → Nat) :
    (killAddr s a r).state = s.state ∧
    (killAddr s a r).unchangedCacheEntries =
      (accountFn s a false r).2.unchangedCacheEntries := by
  have h1 := accountFn_state s a false r
  unfold killAddr
  split
  · next acc s₁ heq => rw [heq] at h1 ⊢; exact ⟨h1, rfl⟩
  · next s₁ heq => rw [heq] at h1 ⊢; exact ⟨h1, rfl⟩

theorem applyMut_frame (s : State) (m : MutOp) :
    (applyMut s m).state = s.state ∧
    (s.unchangedCacheEntries.length ≤ 1001 →
      (applyMut s m).unchangedCacheEntries.length ≤ 1001) := by
  cases m with
  | lookup a rc r =>
    exact ⟨accountFn_state s a rc r, accountFn_uce_le s a rc r⟩
  | readNonce a r =>
    have h := getNonce_frame s a r
    exact ⟨h.1, fun hb => h.2 ▸ accountFn_uce_le s a false r hb⟩
  | readBalance a r =>
    have h := balanceOf_frame s a r
    exact ⟨h.1, fun hb => h.2 ▸ accountFn_uce_le s a false r hb⟩
  | readStorage a k r =>
    have h := storageGet_frame s a k r
    exact ⟨h.1, fun hb => h.2 ▸ accountFn_uce_le s a false r hb⟩
  | doIncNonce a r =>
    have h := incNonce_frame s a r
    exact ⟨h.1, fun hb => h.2 ▸ accountFn_uce_le s a false r hb⟩
  | doAddBalance a amt r =>
    have h := addBalance_frame s a amt r
    exact ⟨h.1, fun hb => h.2 ▸ accountFn_uce_le s a false r hb⟩
  | doSubBalance a amt r =>
    have h := subBalance_frame s a amt r
    refine ⟨h.1, fun hb => ?_⟩
    show (subBalance s a amt r).1.unchangedCacheEntries.length ≤ 1001
    cases h.2 with
    | inl he => rw [he]; exact hb
    | inr he => rw [he]; exact accountFn_uce_le s a false r hb
  | doCreateContract a inc r =>
    have h := createContract_frame s a inc r
    refine ⟨h.1, fun hb => ?_⟩
    show (createContract s a inc r).1.unchangedCacheEntries.length ≤ 1001
    cases h.2 with
    | inl he => rw [he]; exact hb
    | inr he => rw [he]; exact accountFn_uce_le s a false r hb
  | doEnsureExists a r =>
    have h := ensureAccountExists_frame s a r
    exact ⟨h.1, fun hb => h.2 ▸ accountFn_uce_le s a false r hb⟩
  | doKill a r =>
    have h := killAddr_frame s a r
    exact ⟨h.1, fun hb => h.2 ▸ accountFn_uce_le s a false r hb⟩
  | doSetStorage a k v =>
    exact ⟨rfl, fun hb => hb⟩

theorem foldMut_state (muts : List MutOp) (s : State) :
    (muts.foldl applyMut s).state = s.state := by
  induction muts generalizing s with
  | nil => rfl
  | cons m t ih =>
    rw [List.foldl_cons, ih]
    exact (applyMut_frame s m).1

theorem foldMut_uce_le (muts : List MutOp) (s : State)
    (h : s.unchangedCacheEntries.length ≤ 1001) :
    (muts.foldl applyMut s).unchangedCacheEntries.length ≤ 1001 := by
  induction muts generalizing s with
  | nil => exact h
  | cons m t ih =>
    rw [List.foldl_cons]
    exact ih _ ((applyMut_frame s m).2 h)

/-! ### Commit-fold lemmas -/

theorem ethCommitStep_mono (acc : Trie × List Address) (p : Address × Account)
    (x : Address) (h : x ∈ acc.2) : x ∈ (ethCommitStep acc p).2 := by
  unfold ethCommitStep
  split
  · exact List.mem_cons_of_mem _ h
  · exact h

theorem ethCommit_fold_mono (c : List (Address × Account)) :
    ∀ (acc : Trie × List Address) (x : Address), x ∈ acc.2 →
      x ∈ (c.foldl ethCommitStep acc).2 := by
  induction c with
  | nil => intro acc x h; exact h
  | cons p t ih => intro acc x h; exact ih _ x (ethCommitStep_mono acc p x h)

theorem ethCommit_fold_dirty (c : List (Address × Account)) :
    ∀ (acc : Trie × List Address) (p : Address × Account), p ∈ c →
      p.2.isDirty = true → p.1 ∈ (c.foldl ethCommitStep acc).2 := by
  induction c with
  | nil => intro acc p h; exact absurd h (List.not_mem_nil p)
  | cons q t ih =>
    intro acc p hmem hd
    rcases List.mem_cons.mp hmem with hq | ht
    · subst hq
      rw [List.foldl_cons]
      apply ethCommit_fold_mono
      simp [ethCommitStep, hd]
    · rw [List.foldl_cons]
      exact ih _ p ht hd

theorem ethCommit_dirty_mem (c : List (Address × Account)) (tr : Trie)
    (p : Address × Account) (hmem : p ∈ c) (hd : p.2.isDirty = true) :
    p.1 ∈ (ethCommit c tr).2 :=
  ethCommit_fold_dirty c (tr, []) p hmem hd

theorem killIfDirtyEmpty_fst (p : Address × Account) :
    (killIfDirtyEmpty p).1 = p.1 := by
  unfold killIfDirtyEmpty
  split
  · rfl
  · rfl

theorem killIfDirtyEmpty_dirty (p : Address × Account)
    (h : p.2.isDirty = true) : (killIfDirtyEmpty p).2.isDirty = true := by
  unfold killIfDirtyEmpty
  split
  · rfl
  · exact h

/-! ### The eviction-list bound over all reachable states -/

theorem stepOp_uce_le (s : State) (op : Op)
    (h : s.unchangedCacheEntries.length ≤ 1001) :
    (stepOp s op).unchangedCacheEntries.length ≤ 1001 := by
  cases op with
  | opMut m => exact (applyMut_frame s m).2 h
  | doCommit b =>
    have he : (commit s b).unchangedCacheEntries = [] := rfl
    show (commit s b).unchangedCacheEntries.length ≤ 1001
    rw [he]
    simp
  | doSetRoot tr =>
    show (setRoot s tr).unchangedCacheEntries.length ≤ 1001
    simp [setRoot]
  | doPopulateFrom m =>
    have he : (populateFrom s m).unchangedCacheEntries = [] := rfl
    show (populateFrom s m).unchangedCacheEntries.length ≤ 1001
    rw [he]
    simp
  | doNoteStartNonce v =>
    show (noteAccountStartNonce s v).1.unchangedCacheEntries.length ≤ 1001
    unfold noteAccountStartNonce
    split
    · exact h
    · split
      · exact h
      · exact h
  | doExecute p past muts =>
    show (execute s p past muts).unchangedCacheEntries.length ≤ 1001
    unfold execute
    split
    · exact foldMut_uce_le muts s h
    · have he : (commit (muts.foldl applyMut s)
          (if past then CommitBehaviour.RemoveEmptyAccounts
           else CommitBehaviour.KeepEmptyAccounts)).unchangedCacheEntries = [] := rfl
      rw [he]
      simp

theorem reachable_uce_le (s : State) (h : Reachable s) :
    s.unchangedCacheEntries.length ≤ 1001 := by
  induction h with
  | init db trie asn => simp [initState]
  | step s op _ ih => exact stepOp_uce_le s op ih

/-! ### Claim theorems -/

/-- C1: after `commit(b)` the account cache and the `unchangedCacheEntries`
list are both empty, and every address whose cached account was dirty at
the start of the commit has been added to the `touched` set. -/
theorem commit_empties_cache_and_touches_dirty (s : State) (b : CommitBehaviour) :
    (commit s b).cache = [] ∧
    (commit s b).unchangedCacheEntries = [] ∧
    ∀ a acc, alookup s.cache a = some acc → acc.isDirty = true →
      a ∈ (commit s b).touched := by
  refine ⟨rfl, rfl, ?_⟩
  intro a acc hl hd
  have hmem : (a, acc) ∈ s.cache := alookup_mem _ _ _ hl
  cases b with
  | KeepEmptyAccounts =>
    show a ∈ (ethCommit s.cache s.state).2 ++ s.touched
    exact List.mem_append_left _ (ethCommit_dirty_mem s.cache s.state _ hmem hd)
  | RemoveEmptyAccounts =>
    show a ∈ (ethCommit (s.cache.map killIfDirtyEmpty) s.state).2 ++ s.touched
    apply List.mem_append_left
    have hmem' : killIfDirtyEmpty (a, acc) ∈ s.cache.map killIfDirtyEmpty :=
      List.mem_map_of_mem _ hmem
    have h2 := ethCommit_dirty_mem _ s.state _ hmem' (killIfDirtyEmpty_dirty _ hd)
    rw [killIfDirtyEmpty_fst] at h2
    exact h2

/-- Witness for C1 at a concrete state holding one dirty account. -/
theorem commit_empties_cache_and_touches_dirty_witness :
    (commit ⟨⟨fun _ => []⟩, [], [(3, Account.newNormal 0 5)], [7], [], 0⟩
        CommitBehaviour.KeepEmptyAccounts).cache = [] ∧
    (commit ⟨⟨fun _ => []⟩, [], [(3, Account.newNormal 0 5)], [7], [], 0⟩
        CommitBehaviour.KeepEmptyAccounts).unchangedCacheEntries = [] ∧
    3 ∈ (commit ⟨⟨fun _ => []⟩, [], [(3, Account.newNormal 0 5)], [7], [], 0⟩
        CommitBehaviour.KeepEmptyAccounts).touched := by
  have h := commit_empties_cache_and_touches_dirty
    ⟨⟨fun _ => []⟩, [], [(3, Account.newNormal 0 5)], [7], [], 0⟩
    CommitBehaviour.KeepEmptyAccounts
  exact ⟨h.1, h.2.1, h.2.2 3 (Account.newNormal 0 5) rfl rfl⟩

/-- C3: with `Permanence::Reverted`, `execute` discards every cached
mutation by clearing the account cache and does not advance the root: the
trie (hence `rootHash()`) after the call equals its value from before the
transaction's mutations, for any sequence of per-transaction mutations. -/
theorem execute_reverted_preserves_root (s : State) (past : Bool)
    (muts : List MutOp) :
    rootHash (execute s Permanence.Reverted past muts) = rootHash s ∧
    (execute s Permanence.Reverted past muts).cache = [] := by
  constructor
  · show (execute s Permanence.Reverted past muts).state = s.state
    unfold execute
    rw [if_pos rfl]
    show (muts.foldl applyMut s).state = s.state
    exact foldMut_state muts s
  · unfold execute
    rw [if_pos rfl]

/-- C6: `getNonce(a)` returns the account's nonce when an account exists at
`a` (in cache or trie), and `account_start_nonce` when none does; in
particular, on an empty state it returns `account_start_nonce` for every
address. -/
theorem getNonce_existing_or_start (s : State) (a : Address) (r : Nat → Nat) :
    (∀ acc s₁, accountFn s a false r = (some acc, s₁) →
        getNonce s a r = (acc.nonce, s₁)) ∧
    (∀ s₁, accountFn s a false r = (none, s₁) →
        getNonce s a r = (s.accountStartNonce, s)) ∧
    (∀ db asn, getNonce (initState db [] asn) a r = (asn, initState db [] asn)) := by
  refine ⟨?_, ?_, ?_⟩
  · intro acc s₁ h
    unfold getNonce
    rw [h]
  · intro s₁ h
    obtain ⟨rfl, -, -⟩ := accountFn_none s a false r s₁ h
    unfold getNonce
    rw [h]
  · intro db asn
    have hm : accountFn (initState db [] asn) a false r =
        (none, initState db [] asn) := accountFn_miss _ _ _ _ rfl rfl
    unfold getNonce
    rw [hm]
    rfl

/-- Witness for C6 on a one-account trie and on the empty state. -/
theorem getNonce_existing_or_start_witness :
    getNonce (initState ⟨fun _ => []⟩ [] 5) 9 (fun _ => 0) =
      (5, initState ⟨fun _ => []⟩ [] 5) :=
  (getNonce_existing_or_start (initState ⟨fun _ => []⟩ [] 5) 9 (fun _ => 0)).2.1
    (initState ⟨fun _ => []⟩ [] 5) rfl

/-- C9: `getNonce` never raises — on an absent account it returns the raw
stored start-nonce field (the `Invalid256` sentinel when unset), whereas
`incNonce` and `addBalance` on an absent account require the start nonce
and fail with `InvalidAccountStartNonceInState` when it is unset. -/
theorem getNonce_no_raise_vs_require (s : State) (a : Address) (amt : Nat)
    (r : Nat → Nat) :
    (∀ s₁, accountFn s a false r = (none, s₁) →
        getNonce s a r = (s.accountStartNonce, s)) ∧
    (s.accountStartNonce = Invalid256 →
      ∀ s₁, accountFn s a false r = (none, s₁) →
        incNonce s a r = (s, some Err.InvalidAccountStartNonceInState) ∧
        addBalance s a amt r = (s, some Err.InvalidAccountStartNonceInState)) := by
  constructor
  · intro s₁ h
    obtain ⟨rfl, -, -⟩ := accountFn_none s a false r s₁ h
    unfold getNonce
    rw [h]
  · intro hasn s₁ h
    obtain ⟨rfl, -, -⟩ := accountFn_none s a false r s₁ h
    have hreq : requireAccountStartNonce s₁ =
        Except.error Err.InvalidAccountStartNonceInState := by
      unfold requireAccountStartNonce
      rw [if_pos hasn]
    constructor
    · unfold incNonce
      simp only [h, hreq]
    · unfold addBalance
      simp only [h, hreq]

/-- Witness for C9 on an empty state whose start nonce was never set. -/
theorem getNonce_no_raise_vs_require_witness :
    getNonce (initState ⟨fun _ => []⟩ [] Invalid256) 1 (fun _ => 0) =
      (Invalid256, initState ⟨fun _ => []⟩ [] Invalid256) ∧
    incNonce (initState ⟨fun _ => []⟩ [] Invalid256) 1 (fun _ => 0) =
      (initState ⟨fun _ => []⟩ [] Invalid256,
        some Err.InvalidAccountStartNonceInState) := by
  have h := getNonce_no_raise_vs_require
    (initState ⟨fun _ => []⟩ [] Invalid256) 1 0 (fun _ => 0)
  exact ⟨h.1 (initState ⟨fun _ => []⟩ [] Invalid256) rfl,
    (h.2 rfl (initState ⟨fun _ => []⟩ [] Invalid256) rfl).1⟩

/-- C8: the start nonce is set exactly once: when it is unset (the
`Invalid256` sentinel), `noteAccountStartNonce` installs the value with no
error; once set, any attempt to change it to a different value fails with
`IncorrectAccountStartNonceInState` and leaves it unchanged. -/
theorem noteAccountStartNonce_set_once (s : State) (v w : Nat)
    (hunset : s.accountStartNonce = Invalid256) (hv : v ≠ Invalid256)
    (hw : w ≠ v) :
    noteAccountStartNonce s v = ({ s with accountStartNonce := v }, none) ∧
    noteAccountStartNonce (noteAccountStartNonce s v).1 w =
      ((noteAccountStartNonce s v).1,
        some Err.IncorrectAccountStartNonceInState) := by
  have h1 : noteAccountStartNonce s v = ({ s with accountStartNonce := v }, none) := by
    unfold noteAccountStartNonce
    rw [if_pos hunset]
  refine ⟨h1, ?_⟩
  rw [h1]
  unfold noteAccountStartNonce
  rw [if_neg hv, if_pos (Ne.symm hw)]

/-- Witness for C8 with a fresh sentinel state and values 1, then 2. -/
theorem noteAccountStartNonce_set_once_witness :
    noteAccountStartNonce (initState ⟨fun _ => []⟩ [] Invalid256) 1 =
      ({ initState ⟨fun _ => []⟩ [] Invalid256 with accountStartNonce := 1 },
        none) ∧
    noteAccountStartNonce
        (noteAccountStartNonce (initState ⟨fun _ => []⟩ [] Invalid256) 1).1 2 =
      ((noteAccountStartNonce (initState ⟨fun _ => []⟩ [] Invalid256) 1).1,
        some Err.IncorrectAccountStartNonceInState) :=
  noteAccountStartNonce_set_once (initState ⟨fun _ => []⟩ [] Invalid256) 1 2
    rfl (by decide) (by decide)

/-- C10: re-noting the already-fixed start nonce with the same value is a
silent no-op; `IncorrectAccountStartNonceInState` is raised only when the
proposed value differs from the previously fixed one. -/
theorem noteAccountStartNonce_same_noop (s : State) (v : Nat) :
    (s.accountStartNonce ≠ Invalid256 →
      noteAccountStartNonce s s.accountStartNonce = (s, none)) ∧
    (∀ e, (noteAccountStartNonce s v).2 = some e →
      e = Err.IncorrectAccountStartNonceInState ∧
      v ≠ s.accountStartNonce ∧ s.accountStartNonce ≠ Invalid256) := by
  constructor
  · intro hset
    unfold noteAccountStartNonce
    rw [if_neg hset, if_neg (by simp)]
  · intro e he
    unfold noteAccountStartNonce at he
    split at he
    · simp at he
    · next hne =>
      split at he
      · next hne2 =>
        simp only [Option.some.injEq] at he
        exact ⟨he.symm, Ne.symm hne2, hne⟩
      · simp at he

/-- C2 (amended): `subBalance` with amount 0 is a no-op even when no
account exists; with a nonzero amount it fails with `NotEnoughCash` when
the account is absent or its balance is below the amount, leaving the
balance unchanged; otherwise it sets the balance to
`(balance − amount) mod 2^256`, which is an exact decrease by the amount
whenever the amount is nonnegative (the `u256` balance wraps for negative
amounts of magnitude beyond `2^256 − 1 − balance`). -/
theorem subBalance_cases (s : State) (a : Address) (d : Int)
    (r r2 : Nat → Nat) :
    (d = 0 → subBalance s a d r = (s, none)) ∧
    (∀ s₁, d ≠ 0 → accountFn s a false r = (none, s₁) →
      subBalance s a d r = (s, some Err.NotEnoughCash) ∧
      balanceOf s a r2 = (0, s)) ∧
    (∀ acc s₁, d ≠ 0 → accountFn s a false r = (some acc, s₁) →
      (acc.balance : Int) < d →
      subBalance s a d r = (s₁, some Err.NotEnoughCash) ∧
      balanceOf s₁ a r2 = (acc.balance, s₁)) ∧
    (∀ acc s₁, d ≠ 0 → accountFn s a false r = (some acc, s₁) →
      ¬((acc.balance : Int) < d) →
      subBalance s a d r =
        ({ s₁ with cache := ainsert s₁.cache a (acc.addBalance (-d)) }, none) ∧
      (acc.addBalance (-d)).balance =
        (((acc.balance : Int) - d) % (U256size : Int)).toNat ∧
      (0 ≤ d → acc.balance < U256size →
        (acc.addBalance (-d)).balance = acc.balance - d.toNat)) := by
  refine ⟨?_, ?_, ?_, ?_⟩
  · intro hd0
    unfold subBalance
    rw [if_pos hd0]
  · intro s₁ hd h
    obtain ⟨rfl, hc, hs⟩ := accountFn_none s a false r s₁ h
    constructor
    · unfold subBalance
      rw [if_neg hd]
      simp only [h]
    · have hm := accountFn_miss s₁ a false r2 hc hs
      unfold balanceOf
      simp only [hm]
  · intro acc s₁ hd h hlt
    constructor
    · unfold subBalance
      rw [if_neg hd]
      simp only [h]
      rw [if_pos hlt]
    · have hcache := accountFn_some_cache s a false r acc s₁ h
      have hhit := accountFn_cacheHit s₁ a r2 acc hcache
      unfold balanceOf
      simp only [hhit]
  · intro acc s₁ hd h hlt
    refine ⟨?_, ?_, ?_⟩
    · unfold subBalance
      rw [if_neg hd]
      simp only [h]
      rw [if_neg hlt]
    · show (((acc.balance : Int) + -d) % (U256size : Int)).toNat =
        (((acc.balance : Int) - d) % (U256size : Int)).toNat
      rw [← sub_eq_add_neg]
    · intro hdnn hbal
      show (((acc.balance : Int) + -d) % (U256size : Int)).toNat =
        acc.balance - d.toNat
      rw [← sub_eq_add_neg]
      have hle : d ≤ (acc.balance : Int) := not_lt.mp hlt
      have h0 : (0 : Int) ≤ (acc.balance : Int) - d := by omega
      have hb : ((acc.balance : Int)) < (U256size : Int) := by exact_mod_cast hbal
      have h2 : (acc.balance : Int) - d < (U256size : Int) := by omega
      rw [Int.emod_eq_of_lt h0 h2]
      omega

/-- Witness for C2's amended theorem: amount 0, a failing withdrawal from a
10-balance account, and an exact positive withdrawal. -/
theorem subBalance_cases_witness :
    subBalance ⟨⟨fun _ => []⟩, [], [(1, Account.newNormal 0 10)], [], [], 0⟩
        1 0 (fun _ => 0) =
      (⟨⟨fun _ => []⟩, [], [(1, Account.newNormal 0 10)], [], [], 0⟩, none) ∧
    subBalance ⟨⟨fun _ => []⟩, [], [(1, Account.newNormal 0 10)], [], [], 0⟩
        1 11 (fun _ => 0) =
      (⟨⟨fun _ => []⟩, [], [(1, Account.newNormal 0 10)], [], [], 0⟩,
        some Err.NotEnoughCash) ∧
    ((Account.newNormal 0 10).addBalance (-(3 : Int))).balance = 10 - (3 : Int).toNat := by
  have h := subBalance_cases
    ⟨⟨fun _ => []⟩, [], [(1, Account.newNormal 0 10)], [], [], 0⟩
    1 0 (fun _ => 0) (fun _ => 0)
  have h11 := subBalance_cases
    ⟨⟨fun _ => []⟩, [], [(1, Account.newNormal 0 10)], [], [], 0⟩
    1 11 (fun _ => 0) (fun _ => 0)
  have h3 := subBalance_cases
    ⟨⟨fun _ => []⟩, [], [(1, Account.newNormal 0 10)], [], [], 0⟩
    1 3 (fun _ => 0) (fun _ => 0)
  have hhit : accountFn
      ⟨⟨fun _ => []⟩, [], [(1, Account.newNormal 0 10)], [], [], 0⟩
      1 false (fun _ => 0) =
      (some (Account.newNormal 0 10),
        ⟨⟨fun _ => []⟩, [], [(1, Account.newNormal 0 10)], [], [], 0⟩) :=
    accountFn_cacheHit _ _ _ _ rfl
  refine ⟨h.1 rfl, ?_, ?_⟩
  · exact (h11.2.2.1 (Account.newNormal 0 10) _ (by decide) hhit (by decide)).1
  · exact (h3.2.2.2 (Account.newNormal 0 10) _ (by decide) hhit (by decide)).2.2
      (by decide) (by decide)

/-- C2 counterexample: the claim's unconditional "otherwise it decreases
the balance at `a` by exactly `d`" fails for a negative `d`: with the
account's `u256` balance at `2^256 − 1`, `subBalance(a, −1)` takes the
success branch yet wraps the balance to 0 instead of `2^256`. -/
theorem subBalance_exact_decrease_cex :
    (subBalance ⟨⟨fun _ => []⟩, [],
        [(1, Account.newNormal 0 (U256size - 1))], [], [], 0⟩
        1 (-1) (fun _ => 0)).2 = none ∧
    (alookup (subBalance ⟨⟨fun _ => []⟩, [],
        [(1, Account.newNormal 0 (U256size - 1))], [], [], 0⟩
        1 (-1) (fun _ => 0)).1.cache 1).map Account.balance = some 0 ∧
    ¬((0 : Int) = ((U256size - 1 : Nat) : Int) - (-1)) := by
  refine ⟨by decide, by decide, by decide⟩

/-- C4: for an existing account, `storage(a, k)` returns the overlay value
at `k` when the overlay contains `k`, and otherwise the value decoded from
the persisted storage trie at the account's storage root (0 when absent);
the trie read is memoized into the overlay as a read, leaving the account's
dirty status untouched. -/
theorem storage_overlay_else_trie (s : State) (a : Address) (k : Nat)
    (r : Nat → Nat) (acc : Account) (s₁ : State)
    (h : accountFn s a false r = (some acc, s₁)) :
    (∀ v, alookup acc.storageOverlay k = some v →
      storageGet s a k r = (v, s₁)) ∧
    (alookup acc.storageOverlay k = none →
      (storageGet s a k r).1 = (alookup acc.baseRoot k).getD 0 ∧
      alookup (storageGet s a k r).2.cache a =
        some (acc.setStorageCache k ((alookup acc.baseRoot k).getD 0)) ∧
      (acc.setStorageCache k ((alookup acc.baseRoot k).getD 0)).unchangedFlag =
        acc.unchangedFlag ∧
      alookup (acc.setStorageCache k
          ((alookup acc.baseRoot k).getD 0)).storageOverlay k =
        some ((alookup acc.baseRoot k).getD 0)) := by
  constructor
  · intro v hv
    unfold storageGet
    simp only [h, hv]
  · intro hnone
    refine ⟨?_, ?_, rfl, ?_⟩
    · unfold storageGet
      simp only [h, hnone]
    · unfold storageGet
      simp only [h, hnone]
      exact alookup_ainsert_self _ _ _
    · show alookup (ainsert acc.storageOverlay k _) k = _
      exact alookup_ainsert_self _ _ _

/-- Witness for C4 on an account with overlay `{2 ↦ 9}` and persisted
storage `{3 ↦ 4}`. -/
theorem storage_overlay_else_trie_witness :
    storageGet ⟨⟨fun _ => []⟩, [],
        [(1, ⟨0, 0, [(3, 4)], [], [(2, 9)], none, [], false, true, true⟩)],
        [], [], 0⟩ 1 2 (fun _ => 0) =
      (9, ⟨⟨fun _ => []⟩, [],
        [(1, ⟨0, 0, [(3, 4)], [], [(2, 9)], none, [], false, true, true⟩)],
        [], [], 0⟩) ∧
    (storageGet ⟨⟨fun _ => []⟩, [],
        [(1, ⟨0, 0, [(3, 4)], [], [(2, 9)], none, [], false, true, true⟩)],
        [], [], 0⟩ 1 3 (fun _ => 0)).1 = 4 := by
  have hhit : accountFn ⟨⟨fun _ => []⟩, [],
      [(1, (⟨0, 0, [(3, 4)], [], [(2, 9)], none, [], false, true, true⟩ : Account))],
      [], [], 0⟩ 1 false (fun _ => 0) =
      (some ⟨0, 0, [(3, 4)], [], [(2, 9)], none, [], false, true, true⟩,
        ⟨⟨fun _ => []⟩, [],
          [(1, ⟨0, 0, [(3, 4)], [], [(2, 9)], none, [], false, true, true⟩)],
          [], [], 0⟩) :=
    accountFn_cacheHit _ _ _ _ rfl
  constructor
  · exact (storage_overlay_else_trie _ 1 2 (fun _ => 0) _ _ hhit).1 9 rfl
  · exact ((storage_overlay_else_trie _ 1 3 (fun _ => 0) _ _ hhit).2 rfl).1

/-- C5 counterexample: the invariant "every address in
`unchangedCacheEntries` is in the cache with status Unchanged" is violated
by a reachable state: load address 5 clean from the trie, then `incNonce`
it — the entry becomes dirty but stays listed. -/
theorem unchanged_entries_invariant_cex :
    ¬(∀ s, Reachable s → ∀ a, a ∈ s.unchangedCacheEntries →
        ∃ acc, alookup s.cache a = some acc ∧ acc.isDirty = false) := by
  intro hinv
  obtain ⟨acc, hacc, hclean⟩ :=
    hinv (stepOp (stepOp (initState ⟨fun _ => []⟩ [(5, ⟨0, 7, [], []⟩)] 0)
        (Op.opMut (MutOp.lookup 5 false (fun _ => 0))))
        (Op.opMut (MutOp.doIncNonce 5 (fun _ => 0))))
      (Reachable.step _ _ (Reachable.step _ _ (Reachable.init _ _ _)))
      5 (by decide)
  have hc : alookup (stepOp (stepOp (initState ⟨fun _ => []⟩
      [(5, ⟨0, 7, [], []⟩)] 0)
      (Op.opMut (MutOp.lookup 5 false (fun _ => 0))))
      (Op.opMut (MutOp.doIncNonce 5 (fun _ => 0)))).cache 5 =
      some ⟨1, 7, [], [], [], none, [], false, true, false⟩ := by decide
  rw [hc] at hacc
  cases hacc
  exact absurd hclean (by decide)

/-- C5 (amended): an address is in the cache with status Unchanged at the
moment `account` appends it to `unchangedCacheEntries`, and eviction never
removes a dirty entry from the cache; but an already-listed address may
later be dirtied in place (e.g. by `incNonce`) while remaining listed. -/
theorem unchanged_entries_amended (s : State) (a : Address) (rc : Bool)
    (r : Nat → Nat) :
    (∀ rlp, alookup s.cache a = none → alookup s.state a = some rlp →
      ∀ acc s₁, accountFn s a rc r = (some acc, s₁) →
        a ∈ s₁.unchangedCacheEntries ∧ alookup s₁.cache a = some acc ∧
        acc.isDirty = false) ∧
    (∀ k uce c b accB, alookup c b = some accB → accB.isDirty = true →
      alookup (clearCacheIfTooLarge r k uce c).2 b = some accB) := by
  constructor
  · intro rlp hc hs acc s₁ heq
    have hload : accountLoad s a r =
        (some (Account.newDormant rlp.nonce rlp.balance rlp.storageRoot rlp.codeHash),
         { s with
            cache := ainsert
              (clearCacheIfTooLarge r 0 s.unchangedCacheEntries s.cache).2 a
              (Account.newDormant rlp.nonce rlp.balance rlp.storageRoot rlp.codeHash),
            unchangedCacheEntries :=
              (clearCacheIfTooLarge r 0 s.unchangedCacheEntries s.cache).1 ++ [a] }) := by
      unfold accountLoad
      rw [hc, hs]
    unfold accountFn at heq
    cases rc with
    | false =>
      simp only [hload, Bool.false_and, Bool.false_eq_true, if_false] at heq
      obtain ⟨rfl, rfl⟩ := Prod.mk.injEq .. ▸ And.intro
        (congrArg Prod.fst heq) (congrArg Prod.snd heq)
      refine ⟨?_, ?_, rfl⟩
      · exact List.mem_append_right _ (List.mem_singleton_self a)
      · exact alookup_ainsert_self _ _ _
    | true =>
      simp only [hload, Account.isFreshCode, Account.newDormant,
        Option.isSome_none, Bool.not_false, Bool.true_and, Bool.and_self,
        if_true] at heq
      obtain ⟨rfl, rfl⟩ := Prod.mk.injEq .. ▸ And.intro
        (congrArg Prod.fst heq) (congrArg Prod.snd heq)
      refine ⟨?_, ?_, rfl⟩
      · exact List.mem_append_right _ (List.mem_singleton_self a)
      · exact alookup_ainsert_self _ _ _
  · intro k uce c b accB hb hd
    exact clearCacheIfTooLarge_dirty r k uce c b accB hb hd

/-- Witness for C5's amended theorem: a clean install of address 5, and
the survival of a dirty entry under eviction. -/
theorem unchanged_entries_amended_witness :
    (5 ∈ (accountFn (initState ⟨fun _ => []⟩ [(5, ⟨0, 7, [], []⟩)] 0) 5 false
        (fun _ => 0)).2.unchangedCacheEntries ∧
      alookup (accountFn (initState ⟨fun _ => []⟩ [(5, ⟨0, 7, [], []⟩)] 0) 5
          false (fun _ => 0)).2.cache 5 =
        some (Account.newDormant 0 7 [] []) ∧
      (Account.newDormant 0 7 [] []).isDirty = false) ∧
    alookup (clearCacheIfTooLarge (fun _ => 0) 0 []
        [(9, Account.newNormal 1 2)]).2 9 = some (Account.newNormal 1 2) := by
  have h := unchanged_entries_amended
    (initState ⟨fun _ => []⟩ [(5, ⟨0, 7, [], []⟩)] 0) 5 false (fun _ => 0)
  constructor
  · exact h.1 ⟨0, 7, [], []⟩ rfl rfl (Account.newDormant 0 7 [] []) _ rfl
  · exact h.2 0 [] [(9, Account.newNormal 1 2)] 9 (Account.newNormal 1 2) rfl rfl

/-- C7: while more than `MAX_UNCHANGED = 1000` clean entries are listed,
one eviction round swaps the drawn index with the last element and pops it
(for every possible random draw), removing a cache entry only when it is
still Unchanged; the surviving list has exactly `min length 1000` elements,
and every reachable state keeps the list within `MAX_UNCHANGED + 1`. -/
theorem eviction_swapPop_and_bound (r : Nat → Nat) :
    (∀ k uce c, uce.length > 1000 →
      clearCacheIfTooLarge r k uce c =
        clearCacheIfTooLarge r (k + 1) (swapPop uce (r k % uce.length))
          (evictIfClean c (uce.getD (r k % uce.length) 0))) ∧
    (∀ c addr accB, alookup c addr = some accB →
      (accB.isDirty = true → evictIfClean c addr = c) ∧
      (accB.isDirty = false → evictIfClean c addr = aerase c addr)) ∧
    (∀ k uce c, ((clearCacheIfTooLarge r k uce c).1).length = min uce.length 1000) ∧
    (∀ s, Reachable s → s.unchangedCacheEntries.length ≤ 1001) := by
  refine ⟨?_, ?_, ?_, ?_⟩
  · intro k uce c h
    show evictLoop r uce.length k uce c = _
    have hsw : (swapPop uce (r k % uce.length)).length = uce.length - 1 :=
      swapPop_length _ _
    show _ = evictLoop r (swapPop uce (r k % uce.length)).length (k + 1) _ _
    rw [hsw]
    obtain ⟨n, hn⟩ : ∃ n, uce.length = n + 1 := ⟨uce.length - 1, by omega⟩
    conv_lhs => rw [hn]
    rw [evictLoop, if_pos h, hn]
    simp only [Nat.add_sub_cancel]
  · intro c addr accB hl
    constructor
    · intro hd
      unfold evictIfClean
      rw [hl]
      simp [hd]
    · intro hd
      unfold evictIfClean
      rw [hl]
      simp [hd]
  · intro k uce c
    exact clearCacheIfTooLarge_length r k uce c
  · intro s hs
    exact reachable_uce_le s hs

set_option maxRecDepth 8000 in
/-- Witness for C7 on a 1001-element eviction list. -/
theorem eviction_swapPop_and_bound_witness :
    clearCacheIfTooLarge (fun _ => 0) 0 (List.range 1001) [] =
      clearCacheIfTooLarge (fun _ => 0) (0 + 1)
        (swapPop (List.range 1001) ((fun _ => 0) 0 % (List.range 1001).length))
        (evictIfClean [] ((List.range 1001).getD
          ((fun _ => 0) 0 % (List.range 1001).length) 0)) ∧
    evictIfClean [(4, Account.newNormal 1 2)] 4 = [(4, Account.newNormal 1 2)] ∧
    ((clearCacheIfTooLarge (fun _ => 0) 0 (List.range 1001) []).1).length =
      min (List.range 1001).length 1000 ∧
    (initState ⟨fun _ => []⟩ [] 0).unchangedCacheEntries.length ≤ 1001 := by
  have h := eviction_swapPop_and_bound (fun _ => 0)
  refine ⟨?_, ?_, ?_, ?_⟩
  · exact h.1 0 (List.range 1001) [] (by simp [List.length_range])
  · exact (h.2.1 [(4, Account.newNormal 1 2)] 4 (Account.newNormal 1 2) rfl).1 rfl
  · exact h.2.2.1 0 (List.range 1001) []
  · exact h.2.2.2 _ (Reachable.init _ _ _)

/-- Witness for C10 with a fixed start nonce of 7, re-noted as 7 then 9. -/
theorem noteAccountStartNonce_same_noop_witness :
    noteAccountStartNonce (initState ⟨fun _ => []⟩ [] 7) 7 =
      (initState ⟨fun _ => []⟩ [] 7, none) ∧
    (9 : Nat) ≠ 7 ∧ (7 : Nat) ≠ Invalid256 := by
  have h := noteAccountStartNonce_same_noop (initState ⟨fun _ => []⟩ [] 7) 9
  refine ⟨h.1 (by decide), ?_⟩
  have h2 := h.2 Err.IncorrectAccountStartNonceInState rfl
  exact ⟨h2.2.1, h2.2.2⟩

end EthState
